import Mathlib

/-!
Verification of the RHINO coordinate-frame registration engine
(osl/source_recon/rhino.py) against its natural-language specification.

Volumetric data is embedded as Bool- or Rat-valued functions on natural
number index triples, with explicit shape parameters; array slicing and
slice assignment are translated to index-guarded pointwise definitions
with numpy's clamping semantics.  scipy.ndimage.binary_fill_holes is
embedded as a bounded flood computation from the array border through the
background, per its documented semantics (background voxels connected to
the border stay background, all other background voxels are filled;
default structuring element of connectivity one, i.e. 6-adjacency in 3-D
and 4-adjacency in 2-D).
-/

namespace OSLR

/-- Voxel positions as natural number index triples (x, y, z). -/
abbrev Pos := ℕ × ℕ × ℕ

/-- Pixel positions for 2-D slices. -/
abbrev Pos2 := ℕ × ℕ

/-- The set of in-bounds voxel indices of an a by b by c array. -/
def gridFinset (a b c : ℕ) : Finset Pos :=
  Finset.range a ×ˢ Finset.range b ×ˢ Finset.range c

lemma mem_gridFinset {a b c : ℕ} {p : Pos} :
    p ∈ gridFinset a b c ↔ p.1 < a ∧ p.2.1 < b ∧ p.2.2 < c := by
  obtain ⟨x, y, z⟩ := p
  simp [gridFinset, Finset.mem_product]

/-- The set of in-bounds pixel indices of an h by w array. -/
def grid2Finset (h w : ℕ) : Finset Pos2 :=
  Finset.range h ×ˢ Finset.range w

lemma mem_grid2Finset {h w : ℕ} {p : Pos2} :
    p ∈ grid2Finset h w ↔ p.1 < h ∧ p.2 < w := by
  obtain ⟨x, y⟩ := p
  simp [grid2Finset, Finset.mem_product]

section Flood

variable {α : Type} [DecidableEq α]

/-- One step of the flood computation: to the current set, add every cell of
the universe that passes the `good` test and is either a seed or adjacent to
a cell already in the set. -/
def floodStep (U : Finset α) (good seed : α → Bool) (adjacent : α → α → Bool)
    (S : Finset α) : Finset α :=
  S ∪ U.filter (fun p =>
    (good p && (seed p || decide (∃ q ∈ S, adjacent p q = true))) = true)

/-- The saturated flood set, obtained by iterating the step once more than
the size of the universe. -/
def floodSet (U : Finset α) (good seed : α → Bool) (adjacent : α → α → Bool) :
    Finset α :=
  (floodStep U good seed adjacent)^[U.card + 1] ∅

/-- Reachability predicate matching the flood computation: a cell is flooded
when it is a good seed, or a good cell adjacent to a flooded cell. -/
inductive Flood (U : Finset α) (good seed : α → Bool) (adjacent : α → α → Bool) :
    α → Prop
  | start : ∀ p, p ∈ U → good p = true → seed p = true →
      Flood U good seed adjacent p
  | next : ∀ p q, Flood U good seed adjacent q → p ∈ U → good p = true →
      adjacent p q = true → Flood U good seed adjacent p

variable {U : Finset α} {good seed : α → Bool} {adjacent : α → α → Bool}

lemma subset_floodStep (S : Finset α) : S ⊆ floodStep U good seed adjacent S :=
  Finset.subset_union_left

lemma floodStep_subset_union (S : Finset α) :
    floodStep U good seed adjacent S ⊆ S ∪ U :=
  Finset.union_subset_union_right (Finset.filter_subset _ _)

lemma iterate_floodStep_subset (n : ℕ) :
    (floodStep U good seed adjacent)^[n] ∅ ⊆ U := by
  induction n with
  | zero => simp
  | succ n ih =>
    rw [Function.iterate_succ_apply']
    exact (floodStep_subset_union _).trans (Finset.union_subset ih le_rfl)

lemma iterate_floodStep_mono (n : ℕ) :
    (floodStep U good seed adjacent)^[n] ∅ ⊆
      (floodStep U good seed adjacent)^[n + 1] ∅ := by
  rw [Function.iterate_succ_apply']
  exact subset_floodStep _

lemma iterate_floodStep_stable {n : ℕ}
    (h : (floodStep U good seed adjacent)^[n] ∅ =
      (floodStep U good seed adjacent)^[n + 1] ∅) :
    ∀ m, n ≤ m → (floodStep U good seed adjacent)^[m] ∅ =
      (floodStep U good seed adjacent)^[n] ∅ := by
  intro m hm
  induction m with
  | zero => cases Nat.le_zero.mp hm; rfl
  | succ m ih =>
    rcases Nat.lt_or_ge n (m + 1) with hlt | hge
    · have hnm : n ≤ m := Nat.lt_succ_iff.mp hlt
      have := ih hnm
      rw [Function.iterate_succ_apply', this]
      exact ((Function.iterate_succ_apply'
        (floodStep U good seed adjacent) n ∅).symm.trans h.symm)
    · cases Nat.le_antisymm hm hge; rfl

lemma exists_fixed_index :
    ∃ n ≤ U.card, (floodStep U good seed adjacent)^[n] ∅ =
      (floodStep U good seed adjacent)^[n + 1] ∅ := by
  by_contra hno
  push_neg at hno
  have hgrow : ∀ n, n ≤ U.card + 1 →
      n ≤ ((floodStep U good seed adjacent)^[n] ∅).card := by
    intro n
    induction n with
    | zero => simp
    | succ n ih =>
      intro hn
      have hne := hno n (Nat.le_of_succ_le_succ hn)
      have hss : (floodStep U good seed adjacent)^[n] ∅ ⊂
          (floodStep U good seed adjacent)^[n + 1] ∅ :=
        Finset.ssubset_iff_subset_ne.mpr ⟨iterate_floodStep_mono n, hne⟩
      have := Finset.card_lt_card hss
      have := ih (Nat.le_of_succ_le hn)
      omega
  have h1 := hgrow (U.card + 1) le_rfl
  have h2 := Finset.card_le_card
    (@iterate_floodStep_subset α _ U good seed adjacent (U.card + 1))
  omega

lemma floodStep_floodSet :
    floodStep U good seed adjacent (floodSet U good seed adjacent) =
      floodSet U good seed adjacent := by
  obtain ⟨n, hn, hfix⟩ := @exists_fixed_index α _ U good seed adjacent
  have h1 : (floodStep U good seed adjacent)^[U.card + 1] ∅ =
      (floodStep U good seed adjacent)^[n] ∅ :=
    iterate_floodStep_stable hfix _ (by omega)
  have h2 : (floodStep U good seed adjacent)^[U.card + 2] ∅ =
      (floodStep U good seed adjacent)^[n] ∅ :=
    iterate_floodStep_stable hfix _ (by omega)
  calc floodStep U good seed adjacent (floodSet U good seed adjacent)
      = (floodStep U good seed adjacent)^[U.card + 2] ∅ :=
        (Function.iterate_succ_apply'
          (floodStep U good seed adjacent) (U.card + 1) ∅).symm
    _ = floodSet U good seed adjacent := by rw [floodSet, h1, h2]

lemma flood_of_mem_iterate :
    ∀ n p, p ∈ (floodStep U good seed adjacent)^[n] ∅ →
      Flood U good seed adjacent p := by
  intro n
  induction n with
  | zero => simp
  | succ n ih =>
    intro p hp
    rw [Function.iterate_succ_apply', floodStep, Finset.mem_union] at hp
    rcases hp with hp | hp
    · exact ih p hp
    · rw [Finset.mem_filter] at hp
      obtain ⟨hpU, hcond⟩ := hp
      rw [Bool.and_eq_true, Bool.or_eq_true] at hcond
      obtain ⟨hgood, hcase⟩ := hcond
      rcases hcase with hseed | hadj
      · exact Flood.start p hpU hgood hseed
      · rw [decide_eq_true_eq] at hadj
        obtain ⟨q, hq, hpq⟩ := hadj
        exact Flood.next p q (ih q hq) hpU hgood hpq

lemma mem_floodSet_of_flood {p : α} (h : Flood U good seed adjacent p) :
    p ∈ floodSet U good seed adjacent := by
  induction h with
  | start p hpU hgood hseed =>
    rw [← floodStep_floodSet, floodStep, Finset.mem_union]
    right
    rw [Finset.mem_filter]
    exact ⟨hpU, by rw [hgood, hseed]; rfl⟩
  | next p q hq hpU hgood hpq ih =>
    rw [← floodStep_floodSet, floodStep, Finset.mem_union]
    right
    rw [Finset.mem_filter]
    refine ⟨hpU, ?_⟩
    rw [Bool.and_eq_true, Bool.or_eq_true]
    exact ⟨hgood, Or.inr (by rw [decide_eq_true_eq]; exact ⟨q, ih, hpq⟩)⟩

lemma mem_floodSet_iff {p : α} :
    p ∈ floodSet U good seed adjacent ↔ Flood U good seed adjacent p :=
  ⟨flood_of_mem_iterate _ p, mem_floodSet_of_flood⟩

lemma floodStep_congr {good' : α → Bool} (hg : ∀ p ∈ U, good p = good' p)
    (S : Finset α) :
    floodStep U good seed adjacent S = floodStep U good' seed adjacent S := by
  unfold floodStep
  congr 1
  apply Finset.filter_congr
  intro p hp
  rw [hg p hp]

lemma floodSet_congr {good' : α → Bool} (hg : ∀ p ∈ U, good p = good' p) :
    floodSet U good seed adjacent = floodSet U good' seed adjacent := by
  unfold floodSet
  induction (U.card + 1) with
  | zero => rfl
  | succ n ih =>
    rw [Function.iterate_succ_apply', Function.iterate_succ_apply', ih,
      floodStep_congr hg]

end Flood

/-- In-bounds test for a voxel of an a by b by c array. -/
def inGrid (a b c : ℕ) (p : Pos) : Bool :=
  decide (p.1 < a) && decide (p.2.1 < b) && decide (p.2.2 < c)

lemma inGrid_eq_true_iff {a b c : ℕ} {p : Pos} :
    inGrid a b c p = true ↔ p ∈ gridFinset a b c := by
  rw [mem_gridFinset, inGrid]
  simp [and_assoc]

/-- Border test for a voxel: some coordinate lies on a face of the array. -/
def onBorder (a b c : ℕ) (p : Pos) : Bool :=
  decide (p.1 = 0) || decide (p.1 + 1 = a) || decide (p.2.1 = 0) ||
    decide (p.2.1 + 1 = b) || decide (p.2.2 = 0) || decide (p.2.2 + 1 = c)

/-- Six-neighbourhood adjacency of voxel index triples. -/
def adj6 (p q : Pos) : Bool :=
  (decide (p.1 = q.1) && decide (p.2.1 = q.2.1) &&
    (decide (p.2.2 = q.2.2 + 1) || decide (q.2.2 = p.2.2 + 1))) ||
  (decide (p.1 = q.1) && decide (p.2.2 = q.2.2) &&
    (decide (p.2.1 = q.2.1 + 1) || decide (q.2.1 = p.2.1 + 1))) ||
  (decide (p.2.1 = q.2.1) && decide (p.2.2 = q.2.2) &&
    (decide (p.1 = q.1 + 1) || decide (q.1 = p.1 + 1)))

/-- Border test for a pixel of an h by w array. -/
def onBorder2 (h w : ℕ) (p : Pos2) : Bool :=
  decide (p.1 = 0) || decide (p.1 + 1 = h) || decide (p.2 = 0) ||
    decide (p.2 + 1 = w)

/-- Four-neighbourhood adjacency of pixel index pairs. -/
def adj4 (p q : Pos2) : Bool :=
  (decide (p.1 = q.1) && (decide (p.2 = q.2 + 1) || decide (q.2 = p.2 + 1))) ||
  (decide (p.2 = q.2) && (decide (p.1 = q.1 + 1) || decide (q.1 = p.1 + 1)))

/-- Background flood predicate of a 3-D volume: the voxel is background and
is connected, through background voxels by 6-adjacency, to a background
voxel on the array border (the seeding used by binary_fill_holes). -/
def Reach3 (a b c : ℕ) (m : Pos → Bool) (p : Pos) : Prop :=
  Flood (gridFinset a b c) (fun q => !m q) (onBorder a b c) adj6 p

/-- scipy.ndimage.binary_fill_holes on a 3-D Bool array of shape (a, b, c)
with the default connectivity-one structuring element: a voxel of the result
is set when it was set in the input or is a background voxel not connected to
the border background.  Out-of-bounds voxels map to false. -/
def fill3 (a b c : ℕ) (m : Pos → Bool) : Pos → Bool :=
  fun p => inGrid a b c p &&
    (m p || !(decide (p ∈ floodSet (gridFinset a b c) (fun q => !m q)
      (onBorder a b c) adj6)))

/-- Background flood predicate of a 2-D image, with 4-adjacency. -/
def Reach2 (h w : ℕ) (m : Pos2 → Bool) (p : Pos2) : Prop :=
  Flood (grid2Finset h w) (fun q => !m q) (onBorder2 h w) adj4 p

/-- scipy.ndimage.binary_fill_holes on a 2-D Bool array of shape (h, w). -/
def fill2 (h w : ℕ) (m : Pos2 → Bool) : Pos2 → Bool :=
  fun p => (decide (p.1 < h) && decide (p.2 < w)) &&
    (m p || !(decide (p ∈ floodSet (grid2Finset h w) (fun q => !m q)
      (onBorder2 h w) adj4)))

lemma fill3_eq_true_iff {a b c : ℕ} {m : Pos → Bool} {p : Pos}
    (hp : p ∈ gridFinset a b c) :
    fill3 a b c m p = true ↔ (m p = true ∨ ¬ Reach3 a b c m p) := by
  rw [fill3, Bool.and_eq_true, Bool.or_eq_true, Bool.not_eq_true']
  constructor
  · rintro ⟨-, h | h⟩
    · exact Or.inl h
    · right
      rw [decide_eq_false_iff_not, mem_floodSet_iff] at h
      exact h
  · intro h
    refine ⟨inGrid_eq_true_iff.mpr hp, ?_⟩
    rcases h with h | h
    · exact Or.inl h
    · right
      rw [decide_eq_false_iff_not, mem_floodSet_iff]
      exact h

lemma fill3_eq_false_iff {a b c : ℕ} {m : Pos → Bool} {p : Pos}
    (hp : p ∈ gridFinset a b c) :
    fill3 a b c m p = false ↔ (m p = false ∧ Reach3 a b c m p) := by
  rw [← Bool.not_eq_true, fill3_eq_true_iff hp]
  push_neg
  simp

lemma fill3_out_of_grid {a b c : ℕ} {m : Pos → Bool} {p : Pos}
    (hp : p ∉ gridFinset a b c) : fill3 a b c m p = false := by
  rw [fill3]
  have : inGrid a b c p = false := by
    rw [← Bool.not_eq_true, inGrid_eq_true_iff]
    exact hp
  rw [this, Bool.false_and]

lemma fill3_of_true {a b c : ℕ} {m : Pos → Bool} {p : Pos}
    (hp : p ∈ gridFinset a b c) (h : m p = true) : fill3 a b c m p = true :=
  (fill3_eq_true_iff hp).mpr (Or.inl h)

lemma reach3_of_border {a b c : ℕ} {m : Pos → Bool} {p : Pos}
    (hp : p ∈ gridFinset a b c) (hb : onBorder a b c p = true)
    (h : m p = false) : Reach3 a b c m p :=
  Flood.start p hp (by rw [h]; rfl) hb

lemma fill3_border_false {a b c : ℕ} {m : Pos → Bool} {p : Pos}
    (hp : p ∈ gridFinset a b c) (hb : onBorder a b c p = true)
    (h : m p = false) : fill3 a b c m p = false :=
  (fill3_eq_false_iff hp).mpr ⟨h, reach3_of_border hp hb h⟩

lemma reach3_fill3_iff {a b c : ℕ} {m : Pos → Bool} {p : Pos} :
    Reach3 a b c (fill3 a b c m) p ↔ Reach3 a b c m p := by
  constructor
  · intro h
    induction h with
    | start p hpU hgood hseed =>
      rw [Bool.not_eq_true', fill3_eq_false_iff hpU] at hgood
      exact hgood.2
    | next p q hq hpU hgood hpq ih =>
      rw [Bool.not_eq_true', fill3_eq_false_iff hpU] at hgood
      exact hgood.2
  · intro h
    induction h with
    | start p hpU hgood hseed =>
      refine Flood.start p hpU ?_ hseed
      rw [Bool.not_eq_true', fill3_eq_false_iff hpU]
      exact ⟨Bool.not_eq_true' .. ▸ hgood, Flood.start p hpU hgood hseed⟩
    | next p q hq hpU hgood hpq ih =>
      refine Flood.next p q ih hpU ?_ hpq
      rw [Bool.not_eq_true', fill3_eq_false_iff hpU]
      exact ⟨Bool.not_eq_true' .. ▸ hgood, Flood.next p q hq hpU hgood hpq⟩

lemma fill3_idem {a b c : ℕ} {m : Pos → Bool} :
    fill3 a b c (fill3 a b c m) = fill3 a b c m := by
  funext p
  by_cases hp : p ∈ gridFinset a b c
  · rcases h : fill3 a b c m p with hf | ht
    · rw [fill3_eq_false_iff hp] at h ⊢
      refine ⟨(fill3_eq_false_iff hp).mpr h, ?_⟩
      rw [reach3_fill3_iff]
      exact h.2
    · exact fill3_of_true hp h
  · rw [fill3_out_of_grid hp, fill3_out_of_grid hp]

lemma fill3_congr {a b c : ℕ} {m m' : Pos → Bool}
    (h : ∀ p ∈ gridFinset a b c, m p = m' p) :
    fill3 a b c m = fill3 a b c m' := by
  funext p
  by_cases hp : p ∈ gridFinset a b c
  · rw [fill3, fill3, h p hp, @floodSet_congr Pos _ (gridFinset a b c)
      (fun q => !m q) (onBorder a b c) adj6 (fun q => !m' q)
      (fun q hq => congrArg Bool.not (h q hq))]
  · rw [fill3_out_of_grid hp, fill3_out_of_grid hp]

lemma reach3_bottom {a b c K : ℕ} {m : Pos → Bool}
    (hall : ∀ q ∈ gridFinset a b c, q.2.2 ≤ K → m q = false) :
    ∀ z, ∀ p ∈ gridFinset a b c, p.2.2 = z → z ≤ K → Reach3 a b c m p := by
  intro z
  induction z with
  | zero =>
    intro p hp hz _
    refine reach3_of_border hp ?_ (hall p hp (by omega))
    obtain ⟨x, y, w⟩ := p
    simp only at hz
    subst hz
    simp [onBorder]
  | succ z ih =>
    intro p hp hz hK
    obtain ⟨x, y, w⟩ := p
    simp only at hz
    subst hz
    have hq : ((x, y, z) : Pos) ∈ gridFinset a b c := by
      rw [mem_gridFinset] at hp ⊢
      refine ⟨hp.1, hp.2.1, ?_⟩
      have := hp.2.2
      simp only at this ⊢
      omega
    have hflood := ih (x, y, z) hq rfl (by omega)
    refine Flood.next _ (x, y, z) hflood hp ?_ ?_
    · rw [hall _ hp (by simpa using hK)]; rfl
    · simp [adj6]

/-- Coercion of a Bool volume back to float data, as produced when a filled
boolean mask is assigned into a float array. -/
def boolGridToQ (g : Pos → Bool) : Pos → ℚ := fun p => if g p then 1 else 0

/-- The border-augmented mask built by compute_surfaces before hole filling
(rhino.py lines 682-689): a (a+2, b+2, c+2) array of ones, whose interior
from slice 102 up to the penultimate slice receives the scalp data from
slice 101 up, with all slices up to 100 and the top slice zeroed.  Written
pointwise, with the nonzero test binary_fill_holes applies to float input. -/
def maskWithBorder (a b c : ℕ) (scalp : Pos → ℚ) : Pos → Bool :=
  fun p =>
    if p.2.2 ≤ 100 then false
    else if p.2.2 = c + 1 then false
    else if 1 ≤ p.1 ∧ p.1 ≤ a ∧ 1 ≤ p.2.1 ∧ p.2.1 ≤ b ∧ 102 ≤ p.2.2 ∧ p.2.2 ≤ c
      then decide (scalp (p.1 - 1, p.2.1 - 1, p.2.2 - 1) ≠ 0)
    else true

/-- The hole-filling step of mask refinement (rhino.py lines 682-695): build
the border-augmented mask, apply binary_fill_holes, zero all slices up to
101, and crop the one-voxel border. -/
def holeFillStep (a b c : ℕ) (scalp : Pos → ℚ) : Pos → Bool :=
  fun p => inGrid a b c p && decide (101 ≤ p.2.2) &&
    fill3 (a + 2) (b + 2) (c + 2) (maskWithBorder a b c scalp)
      (p.1 + 1, p.2.1 + 1, p.2.2 + 1)

lemma boolGridToQ_ne_zero (g : Pos → Bool) (q : Pos) :
    decide (boolGridToQ g q ≠ 0) = g q := by
  rcases h : g q with _ | _ <;> simp [boolGridToQ, h]

lemma maskWithBorder_eval (a b c : ℕ) (scalp : Pos → ℚ) (i j k : ℕ) :
    maskWithBorder a b c scalp (i, j, k) =
      if k ≤ 100 then false
      else if k = c + 1 then false
      else if 1 ≤ i ∧ i ≤ a ∧ 1 ≤ j ∧ j ≤ b ∧ 102 ≤ k ∧ k ≤ c
        then decide (scalp (i - 1, j - 1, k - 1) ≠ 0)
      else true := rfl

lemma maskWithBorder_bottom {a b c : ℕ} {scalp : Pos → ℚ} {p : Pos}
    (h : p.2.2 ≤ 100) : maskWithBorder a b c scalp p = false := by
  rw [maskWithBorder, if_pos h]

lemma fill3_maskWithBorder_bottom {a b c : ℕ} {scalp : Pos → ℚ} {p : Pos}
    (hp : p ∈ gridFinset (a + 2) (b + 2) (c + 2)) (h : p.2.2 ≤ 100) :
    fill3 (a + 2) (b + 2) (c + 2) (maskWithBorder a b c scalp) p = false := by
  rw [fill3_eq_false_iff hp]
  refine ⟨maskWithBorder_bottom h, ?_⟩
  exact @reach3_bottom (a + 2) (b + 2) (c + 2) 100 _
    (fun q _ hqz => maskWithBorder_bottom hqz) p.2.2 p hp rfl h

lemma maskWithBorder_step {a b c : ℕ} (scalp : Pos → ℚ) :
    ∀ p ∈ gridFinset (a + 2) (b + 2) (c + 2),
      maskWithBorder a b c (boolGridToQ (holeFillStep a b c scalp)) p =
        fill3 (a + 2) (b + 2) (c + 2) (maskWithBorder a b c scalp) p := by
  intro p hp
  obtain ⟨i, j, k⟩ := p
  rw [maskWithBorder_eval]
  by_cases h100 : k ≤ 100
  · rw [if_pos h100, fill3_maskWithBorder_bottom hp h100]
  · rw [if_neg h100]
    by_cases htop : k = c + 1
    · rw [if_pos htop]
      symm
      apply fill3_border_false hp
      · simp [onBorder, htop]
      · rw [maskWithBorder_eval, if_neg h100, if_pos htop]
    · rw [if_neg htop]
      by_cases hint : 1 ≤ i ∧ i ≤ a ∧ 1 ≤ j ∧ j ≤ b ∧ 102 ≤ k ∧ k ≤ c
      · rw [if_pos hint, boolGridToQ_ne_zero]
        obtain ⟨h1i, hia, h1j, hjb, h102, hkc⟩ := hint
        have hg : inGrid a b c (i - 1, j - 1, k - 1) = true := by
          simp only [inGrid, Bool.and_eq_true, decide_eq_true_eq]
          omega
        have h101 : decide (101 ≤ k - 1) = true := by
          simp only [decide_eq_true_eq]
          omega
        simp only [holeFillStep, hg, h101, Bool.true_and,
          Nat.sub_add_cancel h1i, Nat.sub_add_cancel h1j,
          Nat.sub_add_cancel (show 1 ≤ k by omega)]
      · rw [if_neg hint]
        symm
        apply fill3_of_true hp
        rw [maskWithBorder_eval, if_neg h100, if_neg htop, if_neg hint]

/-- Claim C8: the hole-filling step of mask refinement in compute_surfaces
(add a one-voxel border of ones, zero the slices below the standard
field-of-view start and the top slice, apply binary hole filling, remove
the border) is idempotent: applying the step to its own output (with the
boolean mask read back as float data) gives the same mask as applying it
once, for every input scalp volume and every shape. -/
theorem C8_holefill_idempotent (a b c : ℕ) (scalp : Pos → ℚ) :
    holeFillStep a b c (boolGridToQ (holeFillStep a b c scalp)) =
      holeFillStep a b c scalp := by
  funext p
  simp only [holeFillStep]
  rw [fill3_congr (maskWithBorder_step scalp), fill3_idem]

/-- The in-bounds voxel indices as a duplicate-free list, used to model
numpy gather and scatter through np.where over the whole array. -/
def gridIdx (a b c : ℕ) : List Pos :=
  (List.range a).flatMap (fun x => (List.range b).flatMap (fun y =>
    (List.range c).map (fun z => (x, y, z))))

lemma mem_gridIdx {a b c : ℕ} {p : Pos} :
    p ∈ gridIdx a b c ↔ p.1 < a ∧ p.2.1 < b ∧ p.2.2 < c := by
  obtain ⟨x, y, z⟩ := p
  simp only [gridIdx, List.mem_flatMap, List.mem_map, List.mem_range,
    Prod.mk.injEq]
  constructor
  · rintro ⟨u, hu, v, hv, w, hw, rfl, rfl, rfl⟩
    exact ⟨hu, hv, hw⟩
  · rintro ⟨hu, hv, hw⟩
    exact ⟨x, hu, y, hv, z, hw, rfl, rfl, rfl⟩

/-- np.mean of a list of values (sum over length; numpy on an empty input
yields NaN where rational division by zero yields zero). -/
def listMean (l : List ℚ) : ℚ := l.sum / l.length

/-- np.var of a list of values (mean squared deviation, ddof = 0). -/
def listVar (l : List ℚ) : ℚ := listMean (l.map (fun x => (x - listMean l) ^ 2))

/-- np.max of a list of values (zero on an empty input, where numpy would
raise). -/
def listMax : List ℚ → ℚ
  | [] => 0
  | [x] => x
  | x :: y :: t => max x (listMax (y :: t))

lemma listSum_const {v : ℚ} :
    ∀ {l : List ℚ}, (∀ x ∈ l, x = v) → l.sum = l.length * v := by
  intro l
  induction l with
  | nil => intro _; simp
  | cons x t ih =>
    intro h
    rw [List.sum_cons, h x (List.mem_cons_self x t),
      ih (fun y hy => h y (List.mem_cons_of_mem x hy)), List.length_cons]
    push_cast
    ring

lemma listMean_const {l : List ℚ} {v : ℚ} (h : ∀ x ∈ l, x = v)
    (hne : l ≠ []) : listMean l = v := by
  have hn : (l.length : ℚ) ≠ 0 := by
    rw [Nat.cast_ne_zero]
    have := List.length_pos.mpr hne
    omega
  rw [listMean, listSum_const h, mul_comm, mul_div_assoc, div_self hn, mul_one]

lemma listVar_const {l : List ℚ} {v : ℚ} (h : ∀ x ∈ l, x = v) :
    listVar l = 0 := by
  rcases eq_or_ne l [] with rfl | hne
  · simp [listVar, listMean]
  · rw [listVar]
    have hmap : ∀ y ∈ l.map (fun x => (x - listMean l) ^ 2), y = 0 := by
      intro y hy
      rw [List.mem_map] at hy
      obtain ⟨x, hx, rfl⟩ := hy
      rw [h x hx, listMean_const h hne, sub_self]
      ring
    have hmne : l.map (fun x => (x - listMean l) ^ 2) ≠ [] := by
      simpa using hne
    exact listMean_const hmap hmne

lemma listMax_const {v : ℚ} :
    ∀ {l : List ℚ}, (∀ x ∈ l, x = v) → l ≠ [] → listMax l = v := by
  intro l
  induction l with
  | nil => intro _ hne; exact absurd rfl hne
  | cons x t ih =>
    intro h _
    rcases t with _ | ⟨y, t⟩
    · exact h x (List.mem_cons_self x [])
    · rw [listMax, h x (List.mem_cons_self x _),
        ih (fun z hz => h z (List.mem_cons_of_mem x hz)) (by simp)]
      exact max_self v

/-- np.max over the flattened volume (rhino.py line 709 normalises by it). -/
def volMax (a b c : ℕ) (vol : Pos → ℚ) : ℚ := listMax ((gridIdx a b c).map vol)

/-- The normalised volume of rhino.py line 709. -/
def normVol (a b c : ℕ) (vol : Pos → ℚ) : Pos → ℚ :=
  fun p => vol p / volMax a b c vol

/-- np.where(mask == 0) as the list of outside-mask voxel indices. -/
def outsideIdx (a b c : ℕ) (mask : Pos → Bool) : List Pos :=
  (gridIdx a b c).filter (fun p => !mask p)

/-- np.where(mask == 1) as the list of inside-mask voxel indices. -/
def insideIdx (a b c : ℕ) (mask : Pos → Bool) : List Pos :=
  (gridIdx a b c).filter (fun p => mask p)

/-- The normalised intensities gathered at the outside-mask voxels. -/
def outsideVals (a b c : ℕ) (vol : Pos → ℚ) (mask : Pos → Bool) : List ℚ :=
  (outsideIdx a b c mask).map (normVol a b c vol)

/-- The normalised intensities gathered at the inside-mask voxels. -/
def insideVals (a b c : ℕ) (vol : Pos → ℚ) (mask : Pos → Bool) : List ℚ :=
  (insideIdx a b c mask).map (normVol a b c vol)

/-- Observation-model parameters of the two-class diagonal-covariance
Gaussian model of rhino.py lines 714-729: per-class mean, precision
(inverse variance) and weight (voxel count). -/
structure GMParams where
  mean0 : ℚ
  mean1 : ℚ
  prec0 : ℚ
  prec1 : ℚ
  w0 : ℕ
  w1 : ℕ

/-- The one-shot parameter estimates of rhino.py lines 714-722: class 0 is
fit to the outside-mask intensities and class 1 to the inside-mask
intensities of the normalised volume, with no iteration. -/
def noseParams (a b c : ℕ) (vol : Pos → ℚ) (mask : Pos → Bool) : GMParams :=
  { mean0 := listMean (outsideVals a b c vol mask)
    mean1 := listMean (insideVals a b c vol mask)
    prec0 := 1 / listVar (outsideVals a b c vol mask)
    prec1 := 1 / listVar (insideVals a b c vol mask)
    w0 := (outsideIdx a b c mask).length
    w1 := (insideIdx a b c mask).length }

/-- Elementwise scatter of a label list into a mask at a list of indices,
modelling the numpy fancy assignment mask[np.where(mask == 0)] = labels. -/
def scatterLabels : (Pos → Bool) → List Pos → List Bool → (Pos → Bool)
  | m, [], _ => m
  | m, _ :: _, [] => m
  | m, p :: ps, l :: ls => scatterLabels (Function.update m p l) ps ls

lemma scatterLabels_map (g : Pos → Bool) :
    ∀ (idxs : List Pos) (m : Pos → Bool) (q : Pos),
      scatterLabels m idxs (idxs.map g) q = if q ∈ idxs then g q else m q := by
  intro idxs
  induction idxs with
  | nil => intro m q; simp [scatterLabels]
  | cons p ps ih =>
    intro m q
    rw [List.map_cons]
    show scatterLabels (Function.update m p (g p)) ps (ps.map g) q = _
    rw [ih _ q]
    by_cases hq : q ∈ ps
    · rw [if_pos hq, if_pos (List.mem_cons_of_mem p hq)]
    · rw [if_neg hq]
      by_cases hqp : q = p
      · subst hqp
        rw [if_pos (List.mem_cons_self q ps), Function.update_same]
      · rw [if_neg (by simp [hqp, hq]), Function.update_noteq hqp]

/-- The reclassification substep of rhino.py lines 731-735, with the
external sklearn GaussianMixture predict decision given as a parameter
(its Gaussian log-density comparison is real-valued): gather the
normalised intensities at the outside-mask voxels, classify them with the
one-shot parameters, and scatter the labels back into the mask at exactly
those voxels. -/
def reclassify (a b c : ℕ) (predictFn : GMParams → ℚ → Bool)
    (vol : Pos → ℚ) (mask : Pos → Bool) : Pos → Bool :=
  scatterLabels mask (outsideIdx a b c mask)
    ((outsideVals a b c vol mask).map (predictFn (noseParams a b c vol mask)))

/-- Claim C5: in the nose-inclusion step of compute_surfaces, the two-class
diagonal-covariance Gaussian model has its parameters set once, directly
from the inside/outside partition of the normalised volume (class 0 mean,
inverse variance and count from the outside-mask intensities, class 1
likewise from the inside-mask intensities), with no
expectation-maximization iteration, and only voxels currently outside the
mask are reclassified by that model: at every in-bounds voxel the result
is the one-shot classification of its normalised intensity when outside
the mask, and the unchanged mask value when inside. -/
theorem C5_reclassify_one_shot (a b c : ℕ) (predictFn : GMParams → ℚ → Bool)
    (vol : Pos → ℚ) (mask : Pos → Bool) (p : Pos)
    (hp : p.1 < a ∧ p.2.1 < b ∧ p.2.2 < c) :
    (reclassify a b c predictFn vol mask p =
      if mask p then mask p else
        predictFn
          { mean0 := listMean (outsideVals a b c vol mask)
            mean1 := listMean (insideVals a b c vol mask)
            prec0 := 1 / listVar (outsideVals a b c vol mask)
            prec1 := 1 / listVar (insideVals a b c vol mask)
            w0 := (outsideIdx a b c mask).length
            w1 := (insideIdx a b c mask).length }
          (vol p / volMax a b c vol)) ∧
    (mask p = true → reclassify a b c predictFn vol mask p = mask p) := by
  have hmain : reclassify a b c predictFn vol mask p =
      if mask p then mask p else
        predictFn (noseParams a b c vol mask) (normVol a b c vol p) := by
    rw [reclassify, outsideVals, List.map_map,
      scatterLabels_map (predictFn (noseParams a b c vol mask) ∘ normVol a b c vol)
        (outsideIdx a b c mask) mask p]
    have hmem : p ∈ outsideIdx a b c mask ↔ mask p = false := by
      rw [outsideIdx, List.mem_filter, mem_gridIdx]
      simp [hp]
    by_cases hmp : mask p = true
    · have hnot : p ∉ outsideIdx a b c mask := fun hc => by
        rw [hmem.mp hc] at hmp
        exact Bool.false_ne_true hmp
      rw [if_neg hnot, if_pos hmp]
    · have hf : mask p = false := by
        rwa [Bool.not_eq_true] at hmp
      rw [if_pos (hmem.mpr hf), if_neg hmp]
      rfl
  refine ⟨hmain, fun hmp => ?_⟩
  rw [hmain, if_pos hmp]

/-- Witness for C5: an inside-mask voxel of a concrete one-voxel volume is
left unchanged by the reclassification. -/
theorem C5_reclassify_one_shot_witness :
    reclassify 1 1 1 (fun _ _ => false) (fun _ => (0 : ℚ))
      (fun _ => true) (0, 0, 0) = (fun _ : Pos => true) (0, 0, 0) :=
  (C5_reclassify_one_shot 1 1 1 (fun _ _ => false) (fun _ => (0 : ℚ))
    (fun _ => true) (0, 0, 0) (by decide)).2 rfl

/-- Height-range clamp of rhino.py lines 738-739: zero every slice below
50 and from 300 up. -/
def clampZ (m : Pos → Bool) : Pos → Bool :=
  fun p => if p.2.2 < 50 ∨ 300 ≤ p.2.2 then false else m p

/-- Extent of the z slab [50, 300) of a volume of depth c, with numpy
slice clamping. -/
def slabExt (c : ℕ) : ℕ := min 300 c - 50

/-- binary_fill_holes applied to the [50, 300) z slab in place (rhino.py
lines 742 and 744). -/
def slabFill3 (a b c : ℕ) (m : Pos → Bool) : Pos → Bool :=
  fun p => if 50 ≤ p.2.2 ∧ p.2.2 < min 300 c then
      fill3 a b (slabExt c) (fun q => m (q.1, q.2.1, q.2.2 + 50))
        (p.1, p.2.1, p.2.2 - 50)
    else m p

/-- Count of the in-bounds set cells of the 3x3x3 neighbourhood of a voxel. -/
def majCount (a b c : ℕ) (m : Pos → Bool) (p : Pos) : ℕ :=
  ∑ dx ∈ Finset.range 3, ∑ dy ∈ Finset.range 3, ∑ dz ∈ Finset.range 3,
    if 1 ≤ p.1 + dx ∧ p.1 + dx ≤ a ∧ 1 ≤ p.2.1 + dy ∧ p.2.1 + dy ≤ b ∧
        1 ≤ p.2.2 + dz ∧ p.2.2 + dz ≤ c ∧
        m (p.1 + dx - 1, p.2.1 + dy - 1, p.2.2 + dz - 1) = true
      then 1 else 0

/-- Modelled from the spec: rhino_utils._binary_majority3d is not under
src/; section 4.5 of the spec describes it as a 3x3x3 majority-vote
filter, so a voxel of the output is set exactly when a strict majority
(at least 14) of the 27 cells of its 3x3x3 neighbourhood are in bounds
and set in the input. -/
def majority3d (a b c : ℕ) (m : Pos → Bool) : Pos → Bool :=
  fun p => inGrid a b c p && decide (14 ≤ majCount a b c m p)

/-- The majority filter applied to the [50, 300) z slab in place
(rhino.py line 743). -/
def slabMajority (a b c : ℕ) (m : Pos → Bool) : Pos → Bool :=
  fun p => if 50 ≤ p.2.2 ∧ p.2.2 < min 300 c then
      majority3d a b (slabExt c) (fun q => m (q.1, q.2.1, q.2.2 + 50))
        (p.1, p.2.1, p.2.2 - 50)
    else m p

/-- Per-x 2-D hole filling of each (y, z) slab slice (rhino.py lines
746-747). -/
def slabFillX (a b c : ℕ) (m : Pos → Bool) : Pos → Bool :=
  fun p => if 50 ≤ p.2.2 ∧ p.2.2 < min 300 c then
      fill2 b (slabExt c) (fun q => m (p.1, q.1, q.2 + 50)) (p.2.1, p.2.2 - 50)
    else m p

/-- Per-y 2-D hole filling of each (x, z) slab slice (rhino.py lines
748-749). -/
def slabFillY (a b c : ℕ) (m : Pos → Bool) : Pos → Bool :=
  fun p => if 50 ≤ p.2.2 ∧ p.2.2 < min 300 c then
      fill2 a (slabExt c) (fun q => m (q.1, p.2.1, q.2 + 50)) (p.1, p.2.2 - 50)
    else m p

/-- Per-z 2-D hole filling of each (x, y) slice for z in range(50, 300)
(rhino.py lines 750-751; the source loop assumes a depth of at least 300). -/
def slabFillZ (a b c : ℕ) (m : Pos → Bool) : Pos → Bool :=
  fun p => if 50 ≤ p.2.2 ∧ p.2.2 < min 300 c then
      fill2 a b (fun q => m (q.1, q.2, p.2.2)) (p.1, p.2.1)
    else m p

/-- The nose-inclusion step of compute_surfaces (rhino.py lines 706-751),
parametrized by the external sklearn GaussianMixture predict decision:
normalise the volume by its maximum, estimate the two-class parameters
once from the inside/outside partition, reclassify the outside voxels,
clamp the height range, and clean the slab by hole filling, the majority
filter, hole filling again and the per-axis 2-D hole-filling loops.  The
source has no error path: the statistics are computed unconditionally,
with no degeneracy check, and the classification is always applied. -/
def noseStep (a b c : ℕ) (predictFn : GMParams → ℚ → Bool)
    (vol : Pos → ℚ) (mask : Pos → Bool) : Pos → Bool :=
  slabFillZ a b c (slabFillY a b c (slabFillX a b c (slabFill3 a b c
    (slabMajority a b c (slabFill3 a b c
      (clampZ (reclassify a b c predictFn vol mask)))))))

/-- Constant unit volume: the degenerate failing input of C1 has the same
intensity at every voxel, so the outside-mask population has zero
variance. -/
def volC1 : Pos → ℚ := fun _ => 1

/-- Mask set only at the origin voxel; for shape (1, 1, 300) its outside
population is the remaining 299 voxels. -/
def maskC1 : Pos → Bool := fun p => decide (p = ((0, 0, 0) : Pos))

/-- Claim C1: the spec requires that a degenerate outside-mask population
(empty or of zero intensity variance) make the classification step fail
with MaskStatisticsError and nose inclusion be skipped with a warning,
leaving the mask unchanged.  The code has no such error or check: on a
concrete degenerate input (nonempty outside population of zero variance)
the nose-inclusion step still applies the reclassification and cleanup
pipeline, whatever the classifier decides, and its output differs from
the input mask (the origin voxel is cleared by the height clamp), so the
mask is not left without the nose reclassification applied. -/
theorem C1_degenerate_stats_not_skipped (predictFn : GMParams → ℚ → Bool) :
    (outsideVals 1 1 300 volC1 maskC1 ≠ [] ∧
      listVar (outsideVals 1 1 300 volC1 maskC1) = 0) ∧
    noseStep 1 1 300 predictFn volC1 maskC1 ≠ maskC1 := by
  have hval : ∀ x ∈ outsideVals 1 1 300 volC1 maskC1, x = 1 := by
    intro x hx
    rw [outsideVals, List.mem_map] at hx
    obtain ⟨p, _, rfl⟩ := hx
    have hmax : volMax 1 1 300 volC1 = 1 := by
      refine listMax_const ?_ ?_
      · intro y hy
        rw [List.mem_map] at hy
        obtain ⟨q, _, rfl⟩ := hy
        rfl
      · have : ((0, 0, 0) : Pos) ∈ gridIdx 1 1 300 := by
          rw [mem_gridIdx]
          exact ⟨by norm_num, by norm_num, by norm_num⟩
        simp only [ne_eq, List.map_eq_nil_iff]
        exact fun hc => by rw [hc] at this; exact List.not_mem_nil _ this
    rw [normVol, hmax, volC1]
    norm_num
  refine ⟨⟨?_, listVar_const hval⟩, ?_⟩
  · have hmem : ((0, 0, 1) : Pos) ∈ outsideIdx 1 1 300 maskC1 := by
      rw [outsideIdx, List.mem_filter, mem_gridIdx]
      exact ⟨⟨by norm_num, by norm_num, by norm_num⟩, by decide⟩
    rw [outsideVals]
    exact List.ne_nil_of_mem (List.mem_map_of_mem _ hmem)
  · intro h
    have h0 := congrFun h ((0, 0, 0) : Pos)
    have hns : noseStep 1 1 300 predictFn volC1 maskC1 (0, 0, 0) = false := by
      norm_num [noseStep, slabFillZ, slabFillY, slabFillX, slabFill3,
        slabMajority, clampZ]
    rw [hns] at h0
    have hm : maskC1 (0, 0, 0) = true := by decide
    rw [hm] at h0
    exact Bool.false_ne_true h0

/-- One cell test of the 3x3 window of a binary 2-D image: the cell at
offset (dx - 1, dy - 1) from the pixel is in bounds and holds value v. -/
def winCell (h w : ℕ) (s : Pos2 → Bool) (p : Pos2) (dx dy : ℕ) (v : Bool) :
    Bool :=
  decide (1 ≤ p.1 + dx) && decide (p.1 + dx ≤ h) && decide (1 ≤ p.2 + dy) &&
    decide (p.2 + dy ≤ w) && decide (s (p.1 + dx - 1, p.2 + dy - 1) = v)

/-- Window test of a binary 2-D image: the in-bounds 3x3 neighbourhood of
the pixel contains the value v. -/
def winHas (h w : ℕ) (s : Pos2 → Bool) (p : Pos2) (v : Bool) : Bool :=
  winCell h w s p 0 0 v || winCell h w s p 0 1 v || winCell h w s p 0 2 v ||
  winCell h w s p 1 0 v || winCell h w s p 1 1 v || winCell h w s p 1 2 v ||
  winCell h w s p 2 0 v || winCell h w s p 2 1 v || winCell h w s p 2 2 v

/-- cv2.morphologyEx MORPH_GRADIENT with the 3x3 rectangular kernel on a
binary 2-D image, at one pixel: dilation minus erosion, which is set
exactly when the in-bounds 3x3 neighbourhood contains both a set and an
unset pixel (the default border values make dilation and erosion ignore
out-of-image cells). -/
def grad2 (h w : ℕ) (s : Pos2 → Bool) (p : Pos2) : Bool :=
  winHas h w s p true && winHas h w s p false

/-- Gradient of the axis-0 slice (y, z plane through the voxel),
rhino.py lines 766-767. -/
def gradAx0 (b c : ℕ) (mask : Pos → Bool) (p : Pos) : Bool :=
  grad2 b c (fun q => mask (p.1, q.1, q.2)) (p.2.1, p.2.2)

/-- Gradient of the axis-1 slice (x, z plane through the voxel),
rhino.py lines 768-769. -/
def gradAx1 (a c : ℕ) (mask : Pos → Bool) (p : Pos) : Bool :=
  grad2 a c (fun q => mask (q.1, p.2.1, q.2)) (p.1, p.2.2)

/-- Gradient of the axis-2 slice (x, y plane through the voxel),
rhino.py lines 770-771; only computed for z in range(50, 300). -/
def gradAx2 (a b : ℕ) (mask : Pos → Bool) (p : Pos) : Bool :=
  grad2 a b (fun q => mask (q.1, q.2, p.2.2)) (p.1, p.2.1)

/-- Indicator of a Bool as a rational. -/
def b2q (b : Bool) : ℚ := if b then 1 else 0

/-- One voxel of the outline accumulation of rhino.py lines 759-772: the
axis-0 and axis-1 slice gradients are accumulated at every voxel, the
axis-2 gradient only for z in range(50, 300), and the sum is divided
by 3. -/
def outlineVal (a b c : ℕ) (mask : Pos → Bool) (p : Pos) : ℚ :=
  (b2q (gradAx0 b c mask p) + b2q (gradAx1 a c mask p) +
    (if 50 ≤ p.2.2 ∧ p.2.2 < 300 then b2q (gradAx2 a b mask p) else 0)) / 3

/-- The thresholded outline of rhino.py lines 774-776: 1 where the
accumulated vote exceeds 0.6, else 0. -/
def outline (a b c : ℕ) (mask : Pos → Bool) (p : Pos) : Bool :=
  decide ((3 : ℚ) / 5 < outlineVal a b c mask p)

/-- At-least-two-of-three vote on Bools. -/
def atLeastTwo (x y z : Bool) : Bool := (x && y) || (x && z) || (y && z)

/-- Claim C7 (amended): a voxel of the outline is set exactly when at
least 2 of the 3 axis-wise 2-D morphological gradients are nonzero, for
every in-bounds voxel whose third-axis index lies in [50, 300) (where all
three axis views are computed); for every other in-bounds voxel only the
axis-0 and axis-1 views are computed, and the voxel is set exactly when
both of those two gradients are nonzero, not always 0 as the claim
states. -/
theorem C7_outline_vote (a b c : ℕ) (mask : Pos → Bool) (p : Pos)
    (hc : 300 ≤ c) (hx : p.1 < a) (hy : p.2.1 < b) (hz : p.2.2 < c) :
    outline a b c mask p =
      if 50 ≤ p.2.2 ∧ p.2.2 < 300 then
        atLeastTwo (gradAx0 b c mask p) (gradAx1 a c mask p)
          (gradAx2 a b mask p)
      else gradAx0 b c mask p && gradAx1 a c mask p := by
  by_cases hzone : 50 ≤ p.2.2 ∧ p.2.2 < 300
  · rw [if_pos hzone]
    rcases h0 : gradAx0 b c mask p with _ | _ <;>
      rcases h1 : gradAx1 a c mask p with _ | _ <;>
        rcases h2 : gradAx2 a b mask p with _ | _ <;>
          simp only [outline, outlineVal, if_pos hzone, h0, h1, h2, b2q,
            atLeastTwo, if_true, if_false, Bool.and_true, Bool.and_false,
            Bool.or_false, Bool.or_true, Bool.and_self, Bool.false_or,
            Bool.true_or] <;>
          norm_num
  · rw [if_neg hzone]
    rcases h0 : gradAx0 b c mask p with _ | _ <;>
      rcases h1 : gradAx1 a c mask p with _ | _ <;>
        simp only [outline, outlineVal, if_neg hzone, h0, h1, b2q,
          if_true, if_false, Bool.and_true, Bool.and_false,
          Bool.and_self] <;>
        norm_num

/-- Witness for C7 at a concrete input: the all-background mask has no
outline at an in-zone voxel. -/
theorem C7_outline_vote_witness :
    outline 1 1 301 (fun _ => false) (0, 0, 55) =
      if 50 ≤ ((0, 0, 55) : Pos).2.2 ∧ ((0, 0, 55) : Pos).2.2 < 300 then
        atLeastTwo (gradAx0 1 301 (fun _ => false) (0, 0, 55))
          (gradAx1 1 301 (fun _ => false) (0, 0, 55))
          (gradAx2 1 1 (fun _ => false) (0, 0, 55))
      else gradAx0 1 301 (fun _ => false) (0, 0, 55) &&
        gradAx1 1 301 (fun _ => false) (0, 0, 55) :=
  C7_outline_vote 1 1 301 (fun _ => false) (0, 0, 55)
    (by norm_num) (by norm_num) (by norm_num) (by norm_num)

/-- Mask with a single set voxel at (1, 1, 10), below the z range where
the axis-2 view is computed. -/
def maskC7 : Pos → Bool := fun p => decide (p = ((1, 1, 10) : Pos))

/-- Counterexample to claim C7 as stated: the claim says every outline
voxel with third-axis index outside [50, 300) is 0, but at the voxel
(1, 1, 10) of this mask both the axis-0 and axis-1 gradients fire, the
vote is 2/3 which exceeds the 0.6 threshold, and the outline voxel is
set. -/
theorem C7_counterexample :
    outline 3 3 301 maskC7 (1, 1, 10) = true ∧ ¬ (50 ≤ 10) := by
  constructor
  · have hg0 : gradAx0 3 301 maskC7 (1, 1, 10) = true := by decide
    have hg1 : gradAx1 3 301 maskC7 (1, 1, 10) = true := by decide
    have hzone : ¬ (50 ≤ ((1, 1, 10) : Pos).2.2 ∧ ((1, 1, 10) : Pos).2.2 < 300) := by
      norm_num
    simp only [outline, outlineVal, hg0, hg1, if_neg hzone, b2q, if_true]
    rw [decide_eq_true_eq]
    norm_num
  · norm_num

/-- A 4x4 homogeneous transform matrix over the rationals. -/
abbrev Mat4 := Matrix (Fin 4) (Fin 4) ℚ

/-- The metre-to-millimetre conversion of rhino.py lines 1329 and 1775:
trans[0:3, -1] = trans[0:3, -1] * 1000, i.e. only the first three entries
of the last column are scaled. -/
def transToMm (M : Mat4) : Mat4 :=
  fun i j => if i.val ≠ 3 ∧ j.val = 3 then M i j * 1000 else M i j

/-- The millimetre-to-metre conversion of rhino.py line 2261:
trans[0:3, -1] = trans[0:3, -1] / 1000. -/
def transToMetres (M : Mat4) : Mat4 :=
  fun i j => if i.val ≠ 3 ∧ j.val = 3 then M i j / 1000 else M i j

/-- Claim C9: every metre-to-millimetre (and millimetre-to-metre)
conversion of a 4x4 homogeneous transform at an interface boundary
multiplies (divides) only the first three entries of the translation
column by 1000 and leaves the 3x3 rotation/scale block and the bottom row
unchanged. -/
theorem C9_unit_conversion_translation_only (M : Mat4) :
    (∀ i j : Fin 3, transToMm M i.castSucc j.castSucc = M i.castSucc j.castSucc ∧
      transToMetres M i.castSucc j.castSucc = M i.castSucc j.castSucc) ∧
    (∀ j : Fin 4, transToMm M 3 j = M 3 j ∧ transToMetres M 3 j = M 3 j) ∧
    (∀ i : Fin 3, transToMm M i.castSucc 3 = M i.castSucc 3 * 1000 ∧
      transToMetres M i.castSucc 3 = M i.castSucc 3 / 1000) := by
  have hlt : ∀ i : Fin 3, (i.castSucc : Fin 4).val ≠ 3 := by
    intro i
    have h3 := i.isLt
    rw [Fin.coe_castSucc]
    omega
  refine ⟨fun i j => ?_, fun j => ?_, fun i => ?_⟩
  · rw [transToMm, transToMetres]
    rw [if_neg (fun h => hlt j h.2), if_neg (fun h => hlt j h.2)]
    exact ⟨rfl, rfl⟩
  · rw [transToMm, transToMetres]
    rw [if_neg (fun h => h.1 rfl), if_neg (fun h => h.1 rfl)]
    exact ⟨rfl, rfl⟩
  · rw [transToMm, transToMetres]
    rw [if_pos ⟨hlt i, rfl⟩, if_pos ⟨hlt i, rfl⟩]
    exact ⟨rfl, rfl⟩

/-- np.linalg.inv of a 4x4 rational matrix, via the adjugate formula (the
value numpy returns for the invertible matrices the pipeline feeds it). -/
def inv4 (M : Mat4) : Mat4 := M.det⁻¹ • M.adjugate

/-- rhino.py lines 1162-1164: without headshape refinement the ICP
transform is the 4x4 identity. -/
def coregXformIcp (use_headshape : Bool) (icpX : Mat4) : Mat4 :=
  if use_headshape then icpX else 1

/-- rhino.py line 1167: the refined native-to-polhemus transform composes
the inverse of the ICP transform onto the fiducial Procrustes transform. -/
def refinedXform (use_headshape : Bool) (icpX proc : Mat4) : Mat4 :=
  inv4 (coregXformIcp use_headshape icpX) * proc

/-- rhino.py lines 1189-1192: the persisted head_mri_t transform is the
matrix inverse of the refined native-to-polhemus transform. -/
def headMriT (use_headshape : Bool) (icpX proc : Mat4) : Mat4 :=
  inv4 (refinedXform use_headshape icpX proc)

lemma inv4_one : inv4 (1 : Mat4) = 1 := by
  rw [inv4, Matrix.det_one, Matrix.adjugate_one, inv_one, one_smul]

lemma inv4_mul_self {M : Mat4} (h : M.det ≠ 0) : inv4 M * M = 1 := by
  rw [inv4, Matrix.smul_mul, Matrix.adjugate_mul, smul_smul,
    inv_mul_cancel₀ h, one_smul]

lemma self_mul_inv4 {M : Mat4} (h : M.det ≠ 0) : M * inv4 M = 1 := by
  rw [inv4, Matrix.mul_smul, Matrix.mul_adjugate, smul_smul,
    inv_mul_cancel₀ h, one_smul]

/-- Claim C10: in coreg, when use_headshape is False the ICP correction is
the 4x4 identity, so the refined native-to-polhemus transform equals the
fiducial-only Procrustes transform; in every run the ICP correction
composes as the inverse of xform_icp applied before the Procrustes
transform, and the persisted head_mri_t transform is exactly the matrix
inverse of the refined transform (it is computed as np.linalg.inv of it,
and whenever the refined transform is nonsingular the two multiply to the
identity on both sides). -/
theorem C10_refined_transform_and_inverse (u : Bool) (icpX proc : Mat4) :
    (u = false → refinedXform u icpX proc = proc) ∧
    (u = true → refinedXform u icpX proc = inv4 icpX * proc) ∧
    headMriT u icpX proc = inv4 (refinedXform u icpX proc) ∧
    ((refinedXform u icpX proc).det ≠ 0 →
      headMriT u icpX proc * refinedXform u icpX proc = 1 ∧
      refinedXform u icpX proc * headMriT u icpX proc = 1) := by
  refine ⟨?_, ?_, rfl, ?_⟩
  · rintro rfl
    rw [refinedXform, coregXformIcp, if_neg (by exact Bool.false_ne_true),
      inv4_one, one_mul]
  · rintro rfl
    rw [refinedXform, coregXformIcp, if_pos rfl]
  · intro h
    exact ⟨inv4_mul_self h, self_mul_inv4 h⟩

/-- Witness for C10 at concrete transforms. -/
theorem C10_refined_transform_and_inverse_witness :
    refinedXform false 1 1 = (1 : Mat4) ∧
    headMriT false 1 1 * refinedXform false 1 1 = 1 :=
  ⟨(C10_refined_transform_and_inverse false 1 1).1 rfl,
    ((C10_refined_transform_and_inverse false 1 1).2.2.2 (by
      have h : refinedXform false (1 : Mat4) 1 = 1 := by
        rw [refinedXform, coregXformIcp, if_neg (by exact Bool.false_ne_true),
          inv4_one, one_mul]
      rw [h, Matrix.det_one]
      norm_num)).1⟩

/-- A 3-D point with rational coordinates. -/
abbrev Pt := ℚ × ℚ × ℚ

/-- Modelled from the spec: rhino_utils.xform_points is not under src/;
per spec section 4.1 it applies the rotation and translation of a 4x4
homogeneous transform to every point (bottom row ignored, points in
columns). -/
def applyXform (T : Mat4) (v : Pt) : Pt :=
  (T 0 0 * v.1 + T 0 1 * v.2.1 + T 0 2 * v.2.2 + T 0 3,
   T 1 0 * v.1 + T 1 1 * v.2.1 + T 1 2 * v.2.2 + T 1 3,
   T 2 0 * v.1 + T 2 1 * v.2.1 + T 2 2 * v.2.2 + T 2 3)

/-- rhino.py lines 1099-1106: the polhemus fiducials concatenated as the
columns nasion, rpa, lpa. -/
def polhemusFids (nas rpa lpa : Pt) : List Pt := [nas, rpa, lpa]

/-- rhino.py lines 1154-1156: the polhemus headshape points augmented with
the polhemus fiducials of the same frame. -/
def polhemusHeadshape4icp (hs : List Pt) (nas rpa lpa : Pt) : List Pt :=
  hs ++ polhemusFids nas rpa lpa

/-- rhino.py lines 1129-1136: the sMRI-derived headshape points mapped
into polhemus space by the fiducial Procrustes transform. -/
def smriHeadshapePolhemus (xformN2P : Mat4) (hsNative : List Pt) : List Pt :=
  hsNative.map (applyXform xformN2P)

/-- The arguments of one rhino_icp invocation. -/
structure ICPCall where
  staticCloud : List Pt
  movedCloud : List Pt
  iterArg : ℕ

/-- Modelled from the spec: rhino_utils.rhino_icp is not under src/.  The
call site (rhino.py lines 1151-1160) passes the sMRI headshape points in
polhemus space first and the augmented polhemus points second, and its
own comment says the latter are the "source" points that will be moved
around, which the inverse composition of the result at line 1167 also
requires; so the first argument is the cloud held static, the second the
cloud moved by the evolving transform, and the third the iteration
argument, which spec section 4.4 calls the maximum iteration count. -/
def coregICPCall (xformN2P : Mat4) (hsNative hsPolhemus : List Pt)
    (nas rpa lpa : Pt) : ICPCall :=
  { staticCloud := smriHeadshapePolhemus xformN2P hsNative
    movedCloud := polhemusHeadshape4icp hsPolhemus nas rpa lpa
    iterArg := 30 }

/-- Claim C2 (amended): in the ICP refinement step of coreg
(use_headshape=True), the cloud held static is the anatomy-derived (sMRI)
headshape point cloud expressed in polhemus space through the
fiducial-based Procrustes transform (the starting alignment enters by
pre-transforming those points rather than as an argument), the cloud
moved by the evolving transform is the digitizer-space (polhemus)
headshape points augmented with the same frame's fiducials, and 30 is
supplied as the iteration argument. -/
theorem C2_icp_call_roles (xformN2P : Mat4) (hsNative hsPolhemus : List Pt)
    (nas rpa lpa : Pt) :
    (coregICPCall xformN2P hsNative hsPolhemus nas rpa lpa).staticCloud =
      hsNative.map (applyXform xformN2P) ∧
    (coregICPCall xformN2P hsNative hsPolhemus nas rpa lpa).movedCloud =
      hsPolhemus ++ [nas, rpa, lpa] ∧
    (coregICPCall xformN2P hsNative hsPolhemus nas rpa lpa).iterArg = 30 ∧
    (coregICPCall xformN2P hsNative hsPolhemus nas rpa lpa).movedCloud.length =
      hsPolhemus.length + 3 :=
  ⟨rfl, rfl, rfl, by
    show (hsPolhemus ++ [nas, rpa, lpa]).length = hsPolhemus.length + 3
    rw [List.length_append]
    rfl⟩

/-- Counterexample to claim C2 as stated: the claim assigns the moved
role to the sMRI headshape cloud and the target role to the augmented
polhemus cloud, but on a concrete call the moved cloud is the augmented
polhemus cloud and differs from the sMRI headshape cloud in polhemus
space. -/
theorem C2_counterexample :
    (coregICPCall 1 [((0 : ℚ), (0 : ℚ), (0 : ℚ))] [((5 : ℚ), (5 : ℚ), (5 : ℚ))]
        (1, 0, 0) (0, 1, 0) (0, 0, 1)).movedCloud =
      [((5 : ℚ), (5 : ℚ), (5 : ℚ)), (1, 0, 0), (0, 1, 0), (0, 0, 1)] ∧
    (coregICPCall 1 [((0 : ℚ), (0 : ℚ), (0 : ℚ))] [((5 : ℚ), (5 : ℚ), (5 : ℚ))]
        (1, 0, 0) (0, 1, 0) (0, 0, 1)).movedCloud ≠
      smriHeadshapePolhemus 1 [((0 : ℚ), (0 : ℚ), (0 : ℚ))] := by
  constructor
  · rfl
  · intro h
    have := congrArg List.length h
    rw [show (coregICPCall 1 [((0 : ℚ), (0 : ℚ), (0 : ℚ))]
        [((5 : ℚ), (5 : ℚ), (5 : ℚ))] (1, 0, 0) (0, 1, 0)
        (0, 0, 1)).movedCloud.length = 4 from rfl] at this
    rw [show (smriHeadshapePolhemus 1
        [((0 : ℚ), (0 : ℚ), (0 : ℚ))]).length = 1 from rfl] at this
    exact absurd this (by norm_num)

/-- Coordinate accessor of a rational 3-D point. -/
def ptCoord : Fin 3 → Pt → ℚ
  | 0, v => v.1
  | 1, v => v.2.1
  | 2, v => v.2.2

/-- Cross product of two rational 3-D vectors. -/
def crossPt (u v : Pt) : Pt :=
  (u.2.1 * v.2.2 - u.2.2 * v.2.1,
   u.2.2 * v.1 - u.1 * v.2.2,
   u.1 * v.2.1 - u.2.1 * v.1)

/-- Collinearity of three points: the two difference vectors from the
first point have zero cross product. -/
def collinearTriple (p0 p1 p2 : Pt) : Prop :=
  crossPt (p1 - p0) (p2 - p0) = ((0, 0, 0) : Pt)

/-- Centroid of three points. -/
def centroid3 (p0 p1 p2 : Pt) : Pt :=
  ((p0.1 + p1.1 + p2.1) / 3, (p0.2.1 + p1.2.1 + p2.2.1) / 3,
    (p0.2.2 + p1.2.2 + p2.2.2) / 3)

/-- The centered coordinate matrix of a fiducial triple: column i holds
the coordinates of point i minus the centroid of the triple. -/
def centeredMat (p0 p1 p2 : Pt) : Matrix (Fin 3) (Fin 3) ℚ :=
  fun r ci => ptCoord r (![p0, p1, p2] ci - centroid3 p0 p1 p2)

/-- Rank below 2 of a 3x3 rational matrix: every 2x2 minor vanishes. -/
def rankLt2 (M : Matrix (Fin 3) (Fin 3) ℚ) : Prop :=
  ∀ r1 r2 c1 c2 : Fin 3, M r1 c1 * M r2 c2 - M r1 c2 * M r2 c1 = 0

instance rankLt2Decidable (M : Matrix (Fin 3) (Fin 3) ℚ) :
    Decidable (rankLt2 M) :=
  inferInstanceAs (Decidable (∀ r1 r2 c1 c2 : Fin 3,
    M r1 c1 * M r2 c2 - M r1 c2 * M r2 c1 = 0))

/-- Modelled from the spec: rhino_utils.rigid_transform_3D is not under
src/; per spec section 4.3 the alignment invoked by coreg (rhino.py lines
1117-1119) fails with DegenerateAlignmentError exactly when the rank of
the centered coordinate matrix of an input triple is below 2. -/
def rigidTransformRaises (B0 B1 B2 A0 A1 A2 : Pt) : Bool :=
  decide (rankLt2 (centeredMat B0 B1 B2)) ||
    decide (rankLt2 (centeredMat A0 A1 A2))

/-- First combination coefficient of the centered columns over the two
difference vectors. -/
def colA : Fin 3 → ℚ := ![-1/3, 2/3, -1/3]

/-- Second combination coefficient of the centered columns over the two
difference vectors. -/
def colB : Fin 3 → ℚ := ![-1/3, -1/3, 2/3]

lemma centeredMat_decomp (p0 p1 p2 : Pt) (r ci : Fin 3) :
    centeredMat p0 p1 p2 r ci =
      colA ci * ptCoord r (p1 - p0) + colB ci * ptCoord r (p2 - p0) := by
  fin_cases ci <;> fin_cases r <;>
    simp [centeredMat, centroid3, ptCoord, colA, colB, Prod.fst_sub,
      Prod.snd_sub] <;> ring

lemma cross_coords {p0 p1 p2 : Pt} (h : collinearTriple p0 p1 p2)
    (r1 r2 : Fin 3) :
    ptCoord r1 (p1 - p0) * ptCoord r2 (p2 - p0) -
      ptCoord r2 (p1 - p0) * ptCoord r1 (p2 - p0) = 0 := by
  rw [collinearTriple, crossPt] at h
  have h1 := congrArg Prod.fst h
  have h2 := congrArg (fun v : Pt => v.2.1) h
  have h3 := congrArg (fun v : Pt => v.2.2) h
  simp only at h1 h2 h3
  fin_cases r1 <;> fin_cases r2 <;> simp only [ptCoord] <;> linarith

lemma rankLt2_of_collinear {p0 p1 p2 : Pt} (h : collinearTriple p0 p1 p2) :
    rankLt2 (centeredMat p0 p1 p2) := by
  intro r1 r2 c1 c2
  rw [centeredMat_decomp, centeredMat_decomp, centeredMat_decomp,
    centeredMat_decomp]
  linear_combination (colA c1 * colB c2 - colA c2 * colB c1) *
    cross_coords h r1 r2

/-- Claim C3: for every pair of fiducial triples whose three points are
collinear, the rigid point-set alignment invoked by coreg raises
DegenerateAlignmentError instead of returning a transform (modelled from
the spec: the degeneracy test fires because collinearity makes every 2x2
minor of the centered coordinate matrix vanish, so its rank is below 2). -/
theorem C3_collinear_raises (B0 B1 B2 A0 A1 A2 : Pt)
    (hB : collinearTriple B0 B1 B2) (hA : collinearTriple A0 A1 A2) :
    rigidTransformRaises B0 B1 B2 A0 A1 A2 = true := by
  rw [rigidTransformRaises, Bool.or_eq_true, decide_eq_true_eq]
  exact Or.inl (rankLt2_of_collinear hB)

/-- Witness for C3 at the spec's concrete collinear scenario triple
(0,0,0), (1,0,0), (2,0,0). -/
theorem C3_collinear_raises_witness :
    collinearTriple ((0 : ℚ), (0 : ℚ), (0 : ℚ)) (1, 0, 0) (2, 0, 0) ∧
    rigidTransformRaises ((0 : ℚ), (0 : ℚ), (0 : ℚ)) (1, 0, 0) (2, 0, 0)
      ((0 : ℚ), (0 : ℚ), (0 : ℚ)) (1, 0, 0) (2, 0, 0) = true := by
  have hco : collinearTriple ((0 : ℚ), (0 : ℚ), (0 : ℚ)) (1, 0, 0) (2, 0, 0) := by
    rw [collinearTriple, crossPt]
    norm_num [Prod.fst_sub, Prod.snd_sub]
  exact ⟨hco, C3_collinear_raises _ _ _ _ _ _ hco hco⟩

/-- Modelled from the spec: the rotation block constructed by
rigid_transform_3D from the SVD factors U, V of the cross-covariance
matrix of the centered point sets, with the mandatory determinant
correction V * diag(1, 1, det(V * Uᵗ)) * Uᵗ of spec section 4.3. -/
def procrustesRot (U V : Matrix (Fin 3) (Fin 3) ℚ) :
    Matrix (Fin 3) (Fin 3) ℚ :=
  V * Matrix.diagonal ![1, 1, (V * U.transpose).det] * U.transpose

/-- Claim C4: for orthogonal SVD factors U and V (including those whose
uncorrected product V * Uᵗ is a reflection with determinant -1), the
determinant-corrected rotation V * diag(1, 1, det(V * Uᵗ)) * Uᵗ returned
by the rigid point-set alignment is a proper rotation in SO(3): it has
determinant +1 and is orthogonal. -/
theorem C4_determinant_correction (U V : Matrix (Fin 3) (Fin 3) ℚ)
    (hU : U.transpose * U = 1) (hV : V.transpose * V = 1) :
    (procrustesRot U V).det = 1 ∧
    (procrustesRot U V).transpose * procrustesRot U V = 1 := by
  have hu : U.det * U.det = 1 := by
    have h := congrArg Matrix.det hU
    rwa [Matrix.det_mul, Matrix.det_transpose, Matrix.det_one] at h
  have hv : V.det * V.det = 1 := by
    have h := congrArg Matrix.det hV
    rwa [Matrix.det_mul, Matrix.det_transpose, Matrix.det_one] at h
  have hdd : (V * U.transpose).det * (V * U.transpose).det = 1 := by
    rw [Matrix.det_mul, Matrix.det_transpose]
    linear_combination (V.det * V.det) * hu + hv
  constructor
  · rw [procrustesRot, Matrix.det_mul, Matrix.det_mul, Matrix.det_diagonal,
      Fin.prod_univ_three]
    simp only [Matrix.cons_val_zero, Matrix.cons_val_one, Matrix.head_cons,
      Matrix.cons_val_two, Matrix.tail_cons]
    rw [Matrix.det_transpose, Matrix.det_mul, Matrix.det_transpose]
    linear_combination (V.det * V.det) * hu + hv
  · have hDD : Matrix.diagonal ![1, 1, (V * U.transpose).det] *
        Matrix.diagonal ![1, 1, (V * U.transpose).det] =
        (1 : Matrix (Fin 3) (Fin 3) ℚ) := by
      rw [Matrix.diagonal_mul_diagonal]
      have he : (fun i => ![1, 1, (V * U.transpose).det] i *
          ![1, 1, (V * U.transpose).det] i) = fun _ : Fin 3 => (1 : ℚ) := by
        funext i
        fin_cases i
        · show (1 : ℚ) * 1 = 1
          norm_num
        · show (1 : ℚ) * 1 = 1
          norm_num
        · show (V * U.transpose).det * (V * U.transpose).det = 1
          exact hdd
      rw [he, Matrix.diagonal_one]
    rw [procrustesRot, Matrix.transpose_mul, Matrix.transpose_mul,
      Matrix.transpose_transpose, Matrix.diagonal_transpose]
    have hVX : ∀ X : Matrix (Fin 3) (Fin 3) ℚ,
        V.transpose * (V * X) = X := by
      intro X
      rw [← mul_assoc, hV, one_mul]
    calc U * (Matrix.diagonal ![1, 1, (V * U.transpose).det] * V.transpose) *
          (V * Matrix.diagonal ![1, 1, (V * U.transpose).det] * U.transpose)
        = U * (Matrix.diagonal ![1, 1, (V * U.transpose).det] *
            (V.transpose * (V * (Matrix.diagonal ![1, 1, (V * U.transpose).det] *
              U.transpose)))) := by
          simp only [mul_assoc]
      _ = U * (Matrix.diagonal ![1, 1, (V * U.transpose).det] *
            (Matrix.diagonal ![1, 1, (V * U.transpose).det] * U.transpose)) := by
          rw [hVX]
      _ = U * ((Matrix.diagonal ![1, 1, (V * U.transpose).det] *
            Matrix.diagonal ![1, 1, (V * U.transpose).det]) * U.transpose) := by
          rw [mul_assoc]
      _ = U * U.transpose := by rw [hDD, one_mul]
      _ = 1 := Matrix.mul_eq_one_comm.mp hU

/-- Witness for C4 with U the identity and V a reflection, so the
uncorrected product has determinant -1 and the correction is exercised. -/
theorem C4_determinant_correction_witness :
    ((1 : Matrix (Fin 3) (Fin 3) ℚ).transpose * 1 = 1) ∧
    ((Matrix.diagonal ![1, 1, (-1 : ℚ)]).transpose *
      Matrix.diagonal ![1, 1, (-1 : ℚ)] = 1) ∧
    (procrustesRot 1 (Matrix.diagonal ![1, 1, (-1 : ℚ)])).det = 1 := by
  have h1 : (1 : Matrix (Fin 3) (Fin 3) ℚ).transpose * 1 = 1 := by
    rw [Matrix.transpose_one, one_mul]
  have h2 : (Matrix.diagonal ![1, 1, (-1 : ℚ)]).transpose *
      Matrix.diagonal ![1, 1, (-1 : ℚ)] = 1 := by
    rw [Matrix.diagonal_transpose, Matrix.diagonal_mul_diagonal]
    have he : (fun i => ![1, 1, (-1 : ℚ)] i * ![1, 1, (-1 : ℚ)] i) =
        fun _ : Fin 3 => (1 : ℚ) := by
      funext i
      fin_cases i
      · show (1 : ℚ) * 1 = 1
        norm_num
      · show (1 : ℚ) * 1 = 1
        norm_num
      · show (-1 : ℚ) * (-1) = 1
        norm_num
    rw [he, Matrix.diagonal_one]
  exact ⟨h1, h2,
    (C4_determinant_correction 1 (Matrix.diagonal ![1, 1, (-1 : ℚ)]) h1 h2).1⟩

section ICPModel

variable {T C : Type}

/-- Modelled from the spec: rhino_utils.rhino_icp is not under src/; spec
section 4.4 describes one run as, per iteration, (2) nearest-neighbour
correspondence assignment, (3) rejection of correspondences whose
distance exceeds an outlier threshold derived from the current residual
distribution, and (4) closed-form rigid re-estimation on the surviving
correspondences.  The model is parametric over the residual functional E
(mean residual of a transform under a correspondence assignment), the
re-estimation bestFit, the assignment nearest and the rejection step
reject; state n holds the transform and its surviving correspondences
after n iterations. -/
def icpState (bestFit : C → T) (nearest : T → C) (reject : C → C) (T0 : T) :
    ℕ → T × C
  | 0 => (T0, reject (nearest T0))
  | n + 1 =>
    (bestFit (icpState bestFit nearest reject T0 n).2,
      reject (nearest (bestFit (icpState bestFit nearest reject T0 n).2)))

/-- The residual sequence of one modelled ICP run, starting from the
fiducial-based initial alignment T0. -/
def icpRes (E : T → C → ℚ) (bestFit : C → T) (nearest : T → C)
    (reject : C → C) (T0 : T) (n : ℕ) : ℚ :=
  E (icpState bestFit nearest reject T0 n).1
    (icpState bestFit nearest reject T0 n).2

/-- The stopping rule of spec section 4.4: starting from index k with the
given iteration budget as fuel, stop at the first index where the
residual decrease is at most the tolerance, or when the budget is
exhausted. -/
def icpStopIdx (res : ℕ → ℚ) (tol : ℚ) : ℕ → ℕ → ℕ
  | k, 0 => k
  | k, fuel + 1 =>
    if res k - res (k + 1) ≤ tol then k else icpStopIdx res tol (k + 1) fuel

lemma icpStopIdx_le (res : ℕ → ℚ) (tol : ℚ) :
    ∀ fuel k, icpStopIdx res tol k fuel ≤ k + fuel := by
  intro fuel
  induction fuel with
  | zero => intro k; simp [icpStopIdx]
  | succ fuel ih =>
    intro k
    rw [icpStopIdx]
    split
    · omega
    · have := ih (k + 1)
      omega

lemma icpStopIdx_spec (res : ℕ → ℚ) (tol : ℚ) :
    ∀ fuel k, icpStopIdx res tol k fuel < k + fuel →
      res (icpStopIdx res tol k fuel) -
        res (icpStopIdx res tol k fuel + 1) ≤ tol := by
  intro fuel
  induction fuel with
  | zero => intro k h; rw [icpStopIdx] at h ⊢; omega
  | succ fuel ih =>
    intro k h
    rw [icpStopIdx] at h ⊢
    by_cases hc : res k - res (k + 1) ≤ tol
    · rw [if_pos hc]
      exact hc
    · rw [if_neg hc] at h ⊢
      exact ih (k + 1) (by omega)

/-- Minimum of a list of rationals (the multi-start selection of spec
section 4.4 keeps the run with the lowest final residual). -/
def listMinQ : List ℚ → ℚ
  | [] => 0
  | [x] => x
  | x :: y :: t => min x (listMinQ (y :: t))

lemma listMinQ_le_of_mem :
    ∀ {l : List ℚ} {x : ℚ}, x ∈ l → listMinQ l ≤ x := by
  intro l
  induction l with
  | nil => intro x hx; exact absurd hx (List.not_mem_nil x)
  | cons a t ih =>
    intro x hx
    rcases t with _ | ⟨b, t⟩
    · rw [List.mem_singleton] at hx
      subst hx
      exact le_rfl
    · rw [List.mem_cons] at hx
      rcases hx with rfl | hx
      · exact min_le_left _ _
      · exact le_trans (min_le_right _ _) (ih hx)

/-- Claim C6 (amended): for every modelled ICP run in which the
outlier-rejection step discards no correspondence, the mean residual is
non-increasing from one iteration to the next (the re-estimated transform
does at least as well as the current one on the current correspondences,
and the nearest assignment does at least as well as any other),
iteration stops at the first index where the residual decrease is at
most the tolerance or when the iteration budget is exhausted, the
residual at the stopping index is at most the residual of the initial
fiducial-based alignment, and the multi-start selection (minimum final
residual over an ensemble of runs) is also at most the initial
alignment's residual whenever this run's final residual belongs to the
ensemble.  When rejection does discard correspondences the mean residual
over survivors can increase between iterations, so the unrestricted
claim fails. -/
theorem C6_icp_monotone_no_reject (E : T → C → ℚ) (bestFit : C → T)
    (nearest : T → C) (reject : C → C) (T0 : T) (tol : ℚ) (budget : ℕ)
    (hbest : ∀ (c : C) (t : T), E (bestFit c) c ≤ E t c)
    (hnear : ∀ (t : T) (c : C), E t (nearest t) ≤ E t c)
    (hrej : ∀ c, reject c = c) :
    (∀ n, icpRes E bestFit nearest reject T0 (n + 1) ≤
      icpRes E bestFit nearest reject T0 n) ∧
    icpRes E bestFit nearest reject T0
        (icpStopIdx (icpRes E bestFit nearest reject T0) tol 0 budget) ≤
      icpRes E bestFit nearest reject T0 0 ∧
    icpStopIdx (icpRes E bestFit nearest reject T0) tol 0 budget ≤ budget ∧
    (icpStopIdx (icpRes E bestFit nearest reject T0) tol 0 budget < budget →
      icpRes E bestFit nearest reject T0
          (icpStopIdx (icpRes E bestFit nearest reject T0) tol 0 budget) -
        icpRes E bestFit nearest reject T0
          (icpStopIdx (icpRes E bestFit nearest reject T0) tol 0 budget + 1) ≤
        tol) ∧
    (∀ runs : List ℚ,
      icpRes E bestFit nearest reject T0
          (icpStopIdx (icpRes E bestFit nearest reject T0) tol 0 budget) ∈
        runs →
      listMinQ runs ≤ icpRes E bestFit nearest reject T0 0) := by
  have hmono : ∀ n, icpRes E bestFit nearest reject T0 (n + 1) ≤
      icpRes E bestFit nearest reject T0 n := by
    intro n
    have he : icpRes E bestFit nearest reject T0 (n + 1) =
        E (bestFit (icpState bestFit nearest reject T0 n).2)
          (nearest (bestFit (icpState bestFit nearest reject T0 n).2)) := by
      rw [icpRes]
      show E (bestFit (icpState bestFit nearest reject T0 n).2)
          (reject (nearest (bestFit (icpState bestFit nearest reject T0 n).2))) = _
      rw [hrej]
    rw [he]
    exact le_trans
      (hnear (bestFit (icpState bestFit nearest reject T0 n).2)
        (icpState bestFit nearest reject T0 n).2)
      (hbest (icpState bestFit nearest reject T0 n).2
        (icpState bestFit nearest reject T0 n).1)
  have hdesc : ∀ n, icpRes E bestFit nearest reject T0 n ≤
      icpRes E bestFit nearest reject T0 0 := by
    intro n
    induction n with
    | zero => exact le_rfl
    | succ n ih => exact le_trans (hmono n) ih
  refine ⟨hmono, hdesc _, ?_, ?_, ?_⟩
  · have := icpStopIdx_le (icpRes E bestFit nearest reject T0) tol budget 0
    omega
  · intro h
    exact icpStopIdx_spec (icpRes E bestFit nearest reject T0) tol budget 0
      (by omega)
  · intro runs hruns
    exact le_trans (listMinQ_le_of_mem hruns) (hdesc _)

/-- Witness for the amended C6 on a concrete two-transform model in which
the re-estimation step strictly improves the residual: the first
iteration drops the residual from 1 to 0 and the run stays at or below
its initial residual. -/
theorem C6_icp_monotone_no_reject_witness :
    icpRes (fun (t : Bool) (_ : Bool) => if t then (0 : ℚ) else 1)
        (fun _ => true) (fun t => t) (fun c => c) false 1 ≤
      icpRes (fun (t : Bool) (_ : Bool) => if t then (0 : ℚ) else 1)
        (fun _ => true) (fun t => t) (fun c => c) false 0 :=
  (C6_icp_monotone_no_reject
    (fun (t : Bool) (_ : Bool) => if t then (0 : ℚ) else 1)
    (fun _ => true) (fun t => t) (fun c => c) false 1 3
    (fun c t => by rcases t with _ | _ <;> norm_num)
    (fun t c => le_refl _) (fun c => rfl)).1 0

/-- Absolute value of a rational, written as the if-expression the
evaluation lemmas unfold. -/
def absQ (x : ℚ) : ℚ := if x < 0 then -x else x

/-- Nearest neighbour among a list of target coordinates (ties broken
toward the earlier element). -/
def nearestPt : List ℚ → ℚ → ℚ
  | [], _ => 0
  | [t], _ => t
  | t :: ts, x =>
    if absQ (x - t) ≤ absQ (x - nearestPt ts x) then t else nearestPt ts x

/-- Source coordinates of the concrete one-dimensional ICP run used to
refute the unrestricted claim. -/
def icpSourceC6 : List ℚ := [0, 100, 200]

/-- Target coordinates of the concrete one-dimensional ICP run. -/
def icpTargetC6 : List ℚ := [19, 101, 244]

/-- Modelled from the spec: one iteration of spec section 4.4 on the
concrete one-dimensional instance, at current translation t.  Step (1)
transforms the source points, step (2) assigns each its nearest target;
these are the correspondences of the iteration. -/
def icpPairsAt (t : ℚ) : List (ℚ × ℚ) :=
  icpSourceC6.map (fun s => (s + t, nearestPt icpTargetC6 (s + t)))

/-- Step (3)'s outlier threshold, derived from the current residual
distribution as twice the mean correspondence distance. -/
def icpThrAt (t : ℚ) : ℚ :=
  2 * listMean ((icpPairsAt t).map (fun pr => absQ (pr.1 - pr.2)))

/-- Step (3): the correspondences surviving outlier rejection. -/
def icpSurvAt (t : ℚ) : List (ℚ × ℚ) :=
  (icpPairsAt t).filter (fun pr => decide (absQ (pr.1 - pr.2) ≤ icpThrAt t))

/-- The mean residual distance of the iteration, over the surviving
correspondences. -/
def icpResidAt (t : ℚ) : ℚ :=
  listMean ((icpSurvAt t).map (fun pr => absQ (pr.1 - pr.2)))

/-- Steps (4)-(5): the least-squares rigid re-estimation on the surviving
pairs composed onto the running estimate; in one dimension the rigid
transform is a translation and the least-squares optimum is the mean
residual of the survivors. -/
def icpNextT (t : ℚ) : ℚ :=
  t + listMean ((icpSurvAt t).map (fun pr => pr.2 - pr.1))

/-- The translation estimates of the concrete run, started from the
identity alignment. -/
def icpTransC6 : ℕ → ℚ
  | 0 => 0
  | n + 1 => icpNextT (icpTransC6 n)

/-- The mean residual reported at each iteration of the concrete run. -/
def icpResidSeqC6 (n : ℕ) : ℚ := icpResidAt (icpTransC6 n)

set_option maxHeartbeats 2000000 in
lemma nearestPt_c6_0 : nearestPt icpTargetC6 0 = 19 := by
  norm_num [icpTargetC6, nearestPt, absQ]

set_option maxHeartbeats 2000000 in
lemma nearestPt_c6_100 : nearestPt icpTargetC6 100 = 101 := by
  norm_num [icpTargetC6, nearestPt, absQ]

set_option maxHeartbeats 2000000 in
lemma nearestPt_c6_200 : nearestPt icpTargetC6 200 = 244 := by
  norm_num [icpTargetC6, nearestPt, absQ]

set_option maxHeartbeats 2000000 in
lemma nearestPt_c6_10 : nearestPt icpTargetC6 10 = 19 := by
  norm_num [icpTargetC6, nearestPt, absQ]

set_option maxHeartbeats 2000000 in
lemma nearestPt_c6_110 : nearestPt icpTargetC6 110 = 101 := by
  norm_num [icpTargetC6, nearestPt, absQ]

set_option maxHeartbeats 2000000 in
lemma nearestPt_c6_210 : nearestPt icpTargetC6 210 = 244 := by
  norm_num [icpTargetC6, nearestPt, absQ]

lemma icpPairsAt_0 : icpPairsAt 0 = [(0, 19), (100, 101), (200, 244)] := by
  norm_num [icpPairsAt, icpSourceC6, nearestPt_c6_0, nearestPt_c6_100,
    nearestPt_c6_200]

lemma icpPairsAt_10 : icpPairsAt 10 = [(10, 19), (110, 101), (210, 244)] := by
  norm_num [icpPairsAt, icpSourceC6, nearestPt_c6_10, nearestPt_c6_110,
    nearestPt_c6_210]

lemma icpThrAt_0 : icpThrAt 0 = 128 / 3 := by
  norm_num [icpThrAt, icpPairsAt_0, listMean, absQ]

lemma icpThrAt_10 : icpThrAt 10 = 104 / 3 := by
  norm_num [icpThrAt, icpPairsAt_10, listMean, absQ]

lemma icpSurvAt_0 : icpSurvAt 0 = [(0, 19), (100, 101)] := by
  rw [icpSurvAt, icpPairsAt_0]
  norm_num [icpThrAt_0, List.filter, absQ]

lemma icpSurvAt_10 : icpSurvAt 10 = [(10, 19), (110, 101), (210, 244)] := by
  rw [icpSurvAt, icpPairsAt_10]
  norm_num [icpThrAt_10, List.filter, absQ]

lemma icpTransC6_1 : icpTransC6 1 = 10 := by
  show icpNextT (icpTransC6 0) = 10
  rw [show icpTransC6 0 = 0 from rfl, icpNextT, icpSurvAt_0]
  norm_num [listMean]

/-- Counterexample to claim C6 as stated: in the concrete
one-dimensional run of the spec's algorithm, iteration 0 rejects the
far correspondence and reports a mean residual of 10; the re-estimated
translation then brings the far correspondence back under the threshold
at iteration 1, where the mean residual over survivors is 52/3, so the
mean residual error increases from one iteration to the next. -/
theorem C6_rejection_counterexample :
    icpResidSeqC6 0 = 10 ∧ icpResidSeqC6 1 = 52 / 3 ∧
    icpResidSeqC6 0 < icpResidSeqC6 1 := by
  have h0 : icpResidSeqC6 0 = 10 := by
    rw [icpResidSeqC6, show icpTransC6 0 = 0 from rfl, icpResidAt,
      icpSurvAt_0]
    norm_num [listMean, absQ]
  have h1 : icpResidSeqC6 1 = 52 / 3 := by
    rw [icpResidSeqC6, icpTransC6_1, icpResidAt, icpSurvAt_10]
    norm_num [listMean, absQ]
  refine ⟨h0, h1, ?_⟩
  rw [h0, h1]
  norm_num

end ICPModel

end OSLR
